import Mathlib

/-!
Verification of the NTU-timetable table parser (`src/course.rs`).

The Rust source is shallowly embedded: each Rust function becomes a Lean
function of the same name, machine integers (`u32`) become `Nat` with the
`2^32` bound made explicit exactly where the Rust code can overflow, and
fallible Rust code (`Result`) becomes `Except`.  Rust code that can panic
(`unwrap` on a failed numeric parse, checked `u32` arithmetic overflow) is
modelled by a distinguished `panicked` error constructor, kept separate from
the structured error values the source returns.
-/

deriving instance DecidableEq for Except

namespace Timetable

/-! ## Data model (structs from `src/course.rs`) -/

/-- Modelled from the spec: `chrono::Weekday` (weekday enumeration of the
date-time library; the repository only constructs values of it via the
library's name lookup). -/
inductive Weekday where
  | monday | tuesday | wednesday | thursday | friday | saturday | sunday
deriving DecidableEq

/-- Modelled from the spec: `chrono::Month` (month enumeration of the
date-time library). -/
inductive Month where
  | january | february | march | april | may | june
  | july | august | september | october | november | december
deriving DecidableEq

/-- `struct Time { hour: u32, minute: u32 }`. -/
structure Time where
  hour : Nat
  minute : Nat
deriving DecidableEq

/-- `struct Period { start: Time, end: Time }`.  (`end` is a Lean keyword,
so the second field is named `stop` here.) -/
structure Period where
  start : Time
  stop : Time
deriving DecidableEq

/-- `struct Class` from the source: weekday, period, venue, group, week
numbers and class type. -/
structure Class where
  weekday : Weekday
  period : Period
  venue : String
  group : String
  weeks : List Nat
  class_type : String
deriving DecidableEq

/-- `struct Exam` from the source (the source misspells the period field as
`peroid`; the name is kept). -/
structure Exam where
  day : Nat
  month : Month
  year : Nat
  peroid : Period
deriving DecidableEq

/-- `struct Course` from the source. -/
structure Course where
  code : String
  title : String
  au : String
  course_type : String
  index : String
  status : String
  classes : List Class
  exam : Option Exam
deriving DecidableEq

/-- `struct ParseCourseError;` (a unit struct, no detail attached). -/
structure ParseCourseError where
deriving DecidableEq

/-- `struct ParsePeriodError;` (a unit struct). -/
structure ParsePeriodError where
deriving DecidableEq

/-- `struct ParseExamError;` (a unit struct). -/
structure ParseExamError where
deriving DecidableEq

/-- Failure modes of `parse_weeks`.  `noMarker` is the structured
`ParseWeeksError` the Rust function returns when the literal `Teaching Wk`
is absent; `panicked` models the `unwrap()` panic on a numeric token that
does not parse as `u32`, and the checked-arithmetic overflow of `end + 1`
(a process abort in the source, not a returned error value). -/
inductive ParseWeeksErr where
  | noMarker
  | panicked
deriving DecidableEq

/-- `enum ParseTableError` from the source, plus `Panicked`, which models a
Rust panic escaping `parse_from_table` (the source's enum has only the first
three variants because a panic is not a returned value).  The source's
`UnknownCourse(String)` carries `format!("Unknown course for class {:#?}",
class)`; we embed the class value itself instead of its `Debug` rendering. -/
inductive ParseTableError where
  | MissingValues (msg : String)
  | UnknownCourse (cl : Class)
  | Other
  | Panicked
deriving DecidableEq

/-! ## Generic string helpers

`splitChar sep` is Rust's `str::split(sep)` on a character list: it always
returns at least one piece, and splitting the empty string yields `[[]]`. -/

/-- Rust `str::split(c)` over a list of characters. -/
def splitChar (sep : Char) : List Char → List (List Char)
  | [] => [[]]
  | c :: rest =>
    if c = sep then [] :: splitChar sep rest
    else
      match splitChar sep rest with
      | [] => [[c]]
      | t :: ts => (c :: t) :: ts

/-- Numeric value of a digit string (base 10), as `u32::from_str` computes
it before the overflow check. -/
def digitsVal (l : List Char) : Nat :=
  l.foldl (fun acc c => 10 * acc + (c.toNat - 48)) 0

/-- `u32::MAX`. -/
def u32Max : Nat := 4294967295

/-- The digit-string part of `u32::from_str`: requires a non-empty all-digit
string whose value fits in `u32`. -/
def digitsU32 (l : List Char) : Option Nat :=
  if l.isEmpty then none
  else if l.all Char.isDigit then
    if digitsVal l ≤ u32Max then some (digitsVal l) else none
  else none

/-- Rust `str::parse::<u32>()`: an optional leading `+`, then a non-empty
digit string whose value fits in `u32`. -/
def parseU32 (l : List Char) : Option Nat :=
  match l with
  | '+' :: rest => digitsU32 rest
  | _ => digitsU32 l

/-! ## `parse_period` (source lines 253-270)

The regex `^(\d\d)(\d\d)to(\d\d)(\d\d)$` is anchored at both ends, so it
matches exactly the ten-character strings of four digits, the literal `to`,
and four more digits.  Each two-digit capture is then fed to
`str::parse::<u32>().unwrap()`, which on a two-digit string always succeeds
and yields the value below. -/

/-- `u32` parse of a two-digit capture group. -/
def digit2 (a b : Char) : Nat :=
  10 * (a.toNat - 48) + (b.toNat - 48)

/-- `fn parse_period(period: &str) -> Result<Period, ParsePeriodError>`. -/
def parse_period (period : String) : Except ParsePeriodError Period :=
  match period.data with
  | [a, b, c, d, t, o, e, f, g, h] =>
    if a.isDigit ∧ b.isDigit ∧ c.isDigit ∧ d.isDigit ∧ t = 't' ∧ o = 'o' ∧
        e.isDigit ∧ f.isDigit ∧ g.isDigit ∧ h.isDigit then
      .ok ⟨⟨digit2 a b, digit2 c d⟩, ⟨digit2 e f, digit2 g h⟩⟩
    else .error ⟨⟩
  | _ => .error ⟨⟩

/-! ## `parse_weeks` (source lines 280-303) -/

/-- The literal marker required by the regex `Teaching Wk(.*)`. -/
def weekMarker : List Char := "Teaching Wk".data

/-- The capture of `Teaching Wk(.*)`: everything after the first occurrence
of the marker, up to the first newline (`.` does not match `\n`).  `none`
when the marker does not occur. -/
def afterMarker : List Char → Option (List Char)
  | [] => none
  | c :: rest =>
    if (c :: rest).take 11 = weekMarker then
      some (((c :: rest).drop 11).takeWhile (fun x => x ≠ '\n'))
    else afterMarker rest

/-- The anchored range regex `^(?<start>[0-9]+)-(?<end>[0-9]+)$`: exactly
one hyphen separating two non-empty digit strings. -/
def rangeMatch (x : List Char) : Option (List Char × List Char) :=
  match splitChar '-' x with
  | [a, b] =>
    if ¬a.isEmpty ∧ ¬b.isEmpty ∧ a.all Char.isDigit ∧ b.all Char.isDigit then
      some (a, b)
    else none
  | _ => none

/-- One comma-separated token of the week list.  A range token contributes
`start..=end`; the source computes `(start..end + 1)` in `u32`, so
`end = u32::MAX` makes `end + 1` overflow (modelled as a panic, the
behaviour of checked arithmetic in default `cargo` builds).  A non-range
token goes through `x.parse::<u32>().unwrap()`, whose failure is the
source's panic-on-malformed-number defect. -/
def tokenWeeks (x : List Char) : Except ParseWeeksErr (List Nat) :=
  match rangeMatch x with
  | some (a, b) =>
    match digitsU32 a, digitsU32 b with
    | some s, some e =>
      if e + 1 ≤ u32Max then .ok (List.range' s (e + 1 - s)) else .error .panicked
    | _, _ => .error .panicked
  | none =>
    match parseU32 x with
    | some v => .ok [v]
    | none => .error .panicked

/-- The loop of `parse_weeks`: tokens are processed left to right and their
contributions appended in order. -/
def weeksOfTokens : List (List Char) → Except ParseWeeksErr (List Nat)
  | [] => .ok []
  | x :: xs =>
    match tokenWeeks x with
    | .error e => .error e
    | .ok w =>
      match weeksOfTokens xs with
      | .error e => .error e
      | .ok ws => .ok (w ++ ws)

/-- `fn parse_weeks(weeks_raw: &str) -> Result<Vec<u32>, ParseWeeksError>`. -/
def parse_weeks (weeks_raw : String) : Except ParseWeeksErr (List Nat) :=
  match afterMarker weeks_raw.data with
  | none => .error .noMarker
  | some rest => weeksOfTokens (splitChar ',' rest)

/-! ## `parse_exam` (source lines 148-194)

The regex is built from the pattern string
`/(?<day>\d{2})-(?<month>[A-Z][a-z]{2})-(?<year>[0-9]{4}) (?<start_hour>\d{2})(?<start_minute>\d{2})to(?<end_hour>\d{2})(?<end_minute>\d{2})/gm`.
The Rust `regex` crate has no `/.../flags` literal syntax: the leading and
trailing slashes and the trailing `gm` are ordinary literal characters of
the pattern.  `Regex::captures` searches unanchored, so the embedded search
tries each start position from the left and takes the first (leftmost)
match; the pattern has a fixed shape, so the match at a position is unique. -/

/-- Raw capture groups of one match of the exam regex. -/
structure ExamCaps where
  day : Nat
  mon : String
  year : Nat
  sh : Nat
  sm : Nat
  eh : Nat
  em : Nat
deriving DecidableEq

/-- Try to match the exam pattern starting exactly at the head of `cs`. -/
def examCapsAt (cs : List Char) : Option ExamCaps :=
  match cs with
  | '/' :: d1 :: d2 :: '-' :: m1 :: m2 :: m3 :: '-' :: y1 :: y2 :: y3 :: y4 ::
      ' ' :: h1 :: h2 :: n1 :: n2 :: 't' :: 'o' :: h3 :: h4 :: n3 :: n4 ::
      '/' :: 'g' :: 'm' :: _ =>
    if d1.isDigit ∧ d2.isDigit ∧ m1.isUpper ∧ m2.isLower ∧ m3.isLower ∧
        y1.isDigit ∧ y2.isDigit ∧ y3.isDigit ∧ y4.isDigit ∧
        h1.isDigit ∧ h2.isDigit ∧ n1.isDigit ∧ n2.isDigit ∧
        h3.isDigit ∧ h4.isDigit ∧ n3.isDigit ∧ n4.isDigit then
      some ⟨digit2 d1 d2, ⟨[m1, m2, m3]⟩, digitsVal [y1, y2, y3, y4],
        digit2 h1 h2, digit2 n1 n2, digit2 h3 h4, digit2 n3 n4⟩
    else none
  | _ => none

/-- Leftmost match of the exam pattern anywhere in the input. -/
def scanExamCaps : List Char → Option ExamCaps
  | [] => none
  | c :: rest =>
    match examCapsAt (c :: rest) with
    | some caps => some caps
    | none => scanExamCaps rest

/-- Modelled from the spec: `chrono::Month`'s `FromStr` (month-name lookup
of the date-time library), accepting a case-insensitive three-letter
abbreviation or full English month name. -/
def monthFromStr (s : String) : Option Month :=
  let l := s.data.map Char.toLower
  if l = "jan".data ∨ l = "january".data then some .january
  else if l = "feb".data ∨ l = "february".data then some .february
  else if l = "mar".data ∨ l = "march".data then some .march
  else if l = "apr".data ∨ l = "april".data then some .april
  else if l = "may".data then some .may
  else if l = "jun".data ∨ l = "june".data then some .june
  else if l = "jul".data ∨ l = "july".data then some .july
  else if l = "aug".data ∨ l = "august".data then some .august
  else if l = "sep".data ∨ l = "september".data then some .september
  else if l = "oct".data ∨ l = "october".data then some .october
  else if l = "nov".data ∨ l = "november".data then some .november
  else if l = "dec".data ∨ l = "december".data then some .december
  else none

/-- `fn parse_exam(exam_raw: &str) -> Result<Exam, ParseExamError>`.  The
digit-group `unwrap()`s never panic (two- and four-digit values fit `u32`),
so only the regex search and the month lookup can fail. -/
def parse_exam (exam_raw : String) : Except ParseExamError Exam :=
  match scanExamCaps exam_raw.data with
  | none => .error ⟨⟩
  | some caps =>
    match monthFromStr caps.mon with
    | none => .error ⟨⟩
    | some m =>
      .ok ⟨caps.day, m, caps.year, ⟨⟨caps.sh, caps.sm⟩, ⟨caps.eh, caps.em⟩⟩⟩

/-! ## `Course::new` (source lines 208-236) -/

/-- `Course::new`: fails with the generic unit error if any of the six
inputs `is_empty()`; no trimming is performed here. -/
def Course.new (code title au course_type index status : String) :
    Except ParseCourseError Course :=
  if code = "" ∨ title = "" ∨ au = "" ∨ course_type = "" ∨ index = "" ∨
      status = "" then
    .error ⟨⟩
  else
    .ok ⟨code, title, au, course_type, index, status, [], none⟩

/-- Modelled from the spec: `chrono::Weekday`'s `FromStr` (weekday-name
lookup of the date-time library), accepting a case-insensitive three-letter
abbreviation or full English weekday name. -/
def weekdayFromStr (s : String) : Option Weekday :=
  let l := s.data.map Char.toLower
  if l = "mon".data ∨ l = "monday".data then some .monday
  else if l = "tue".data ∨ l = "tuesday".data then some .tuesday
  else if l = "wed".data ∨ l = "wednesday".data then some .wednesday
  else if l = "thu".data ∨ l = "thursday".data then some .thursday
  else if l = "fri".data ∨ l = "friday".data then some .friday
  else if l = "sat".data ∨ l = "saturday".data then some .saturday
  else if l = "sun".data ∨ l = "sunday".data then some .sunday
  else none

/-! ## `Course::parse_from_table` (source lines 67-134)

The raw text has all newlines removed, is split on tabs, and the token list
is grouped into windows of 16 (`NUM_COLUMNS`); only the final window can be
short.  Each row is trimmed token-wise, its length checked, and then
processed by the loop body `processRow` below. -/

/-- `NUM_COLUMNS`. -/
def numColumns : Nat := 16

/-- Fuel-driven worker for `chunks16` (structural recursion on the fuel, so
that the function reduces definitionally; the fuel is always at least the
list length at every call). -/
def chunksF : Nat → List α → List (List α)
  | _, [] => []
  | 0, _ :: _ => []
  | fuel + 1, x :: xs => ((x :: xs).take 16) :: chunksF fuel ((x :: xs).drop 16)

/-- `Itertools::chunks(16)` over a token list: successive windows of 16, the
last possibly shorter. -/
def chunks16 (l : List α) : List (List α) := chunksF l.length l

/-- Apply `f` to the last element of a list (`Vec::last_mut`); identity on
the empty list. -/
def updateLast (f : Course → Course) : List Course → List Course
  | [] => []
  | [c] => [f c]
  | c :: c' :: rest => c :: updateLast f (c' :: rest)

/-- The header attempt of the loop body: `Course::new` on columns
0,1,2,3,6,7; on success the new course is appended, on failure the row is
not a header and the course list is unchanged. -/
def applyHeader (courses : List Course) (row : List String) : List Course :=
  match Course.new (row.getD 0 "") (row.getD 1 "") (row.getD 2 "")
      (row.getD 3 "") (row.getD 6 "") (row.getD 7 "") with
  | .ok c => courses ++ [c]
  | .error _ => courses

/-- The exam step of the loop body: if column 14 is non-empty and a current
course exists, `parse_exam` is run (its failure aborts the parse with
`Other`) and the result overwrites the current course's exam.  With no
current course the non-empty field is skipped (`if let` with no `else`). -/
def examStep (courses : List Course) (field : String) :
    Except ParseTableError (List Course) :=
  if field = "" then .ok courses
  else
    match courses with
    | [] => .ok courses
    | _ :: _ =>
      match parse_exam field with
      | .ok e => .ok (updateLast (fun c => { c with exam := some e }) courses)
      | .error _ => .error .Other

/-- The class step of the loop body: nothing to do if the class-type column
9 is empty; otherwise parse weekday (column 11), period (column 12) and
weeks (column 14), build the `Class` with venue 13 and group 10, and push it
onto the current course, failing with `UnknownCourse` if there is none. -/
def classStep (courses : List Course) (row : List String) :
    Except ParseTableError (List Course) :=
  if row.getD 9 "" = "" then .ok courses
  else
    match weekdayFromStr (row.getD 11 "") with
    | none => .error .Other
    | some wd =>
      match parse_period (row.getD 12 "") with
      | .error _ => .error .Other
      | .ok p =>
        match parse_weeks (row.getD 14 "") with
        | .error .noMarker => .error .Other
        | .error .panicked => .error .Panicked
        | .ok ws =>
          let cl : Class := ⟨wd, p, row.getD 13 "", row.getD 10 "", ws,
            row.getD 9 ""⟩
          match courses with
          | [] => .error (.UnknownCourse cl)
          | _ :: _ =>
            .ok (updateLast (fun c => { c with classes := c.classes ++ [cl] })
              courses)

/-- The loop body of `parse_from_table` for one (already trimmed) 16-token
row: header attempt, then exam step, then class step. -/
def processRow (courses : List Course) (row : List String) :
    Except ParseTableError (List Course) :=
  let courses1 := applyHeader courses row
  match examStep courses1 (row.getD 14 "") with
  | .error e => .error e
  | .ok courses2 => classStep courses2 row

/-- Rust `str::trim`: drop leading and trailing whitespace (space, tab,
carriage return, newline; the full Unicode white-space set never differs on
the inputs of this development). -/
def trimStr (s : String) : String :=
  ⟨((s.data.dropWhile Char.isWhitespace).reverse.dropWhile
      Char.isWhitespace).reverse⟩

/-- The `MissingValues` message, exactly as the source's `format!` builds it
(the source passes the found count to the `expected {}` slot and the
expected count 16 to the `found {}` slot). -/
def missingMsg (i found : Nat) : String :=
  "Missing columns from table on line " ++ toString i ++ ", expected " ++
    toString found ++ ", found " ++ toString numColumns

/-- The row loop: trims each token of the window, fails with
`MissingValues` if the window does not have exactly 16 tokens, and otherwise
runs the loop body, threading the course list. -/
def parseRows (i : Nat) (courses : List Course) :
    List (List String) → Except ParseTableError (List Course)
  | [] => .ok courses
  | chunk :: rest =>
    let row := chunk.map trimStr
    if row.length ≠ numColumns then
      .error (.MissingValues (missingMsg i row.length))
    else
      match processRow courses row with
      | .error e => .error e
      | .ok courses' => parseRows (i + 1) courses' rest

/-- `table.replace('\n', "").split('\t')`: drop every newline character,
then split on tabs (splitting always yields at least one token; the empty
string yields one empty token). -/
def tokenize (table : String) : List String :=
  (splitChar '\t' (table.data.filter (fun c => c ≠ '\n'))).map
    (fun l => String.mk l)

/-- `Course::parse_from_table`. -/
def parse_from_table (table : String) : Except ParseTableError (List Course) :=
  parseRows 0 [] (chunks16 (tokenize table))

/-! ## Helper lemmas -/

theorem chunksF_congr : ∀ (f1 f2 : Nat) (l : List α), l.length ≤ f1 →
    l.length ≤ f2 → chunksF f1 l = chunksF f2 l := by
  intro f1
  induction f1 with
  | zero =>
    intro f2 l h1 h2
    have : l = [] := List.eq_nil_of_length_eq_zero (Nat.le_zero.mp h1)
    subst this
    cases f2 <;> rfl
  | succ n ih =>
    intro f2 l h1 h2
    cases l with
    | nil => cases f2 <;> rfl
    | cons x xs =>
      cases f2 with
      | zero => simp at h2
      | succ m =>
        simp only [chunksF]
        congr 1
        apply ih
        · rw [List.length_drop]
          simp only [List.length_cons] at h1 ⊢
          omega
        · rw [List.length_drop]
          simp only [List.length_cons] at h2 ⊢
          omega

theorem chunks16_cons (x : α) (xs : List α) :
    chunks16 (x :: xs) =
      ((x :: xs).take 16) :: chunks16 ((x :: xs).drop 16) := by
  unfold chunks16
  simp only [List.length_cons, chunksF]
  congr 1
  apply chunksF_congr
  · rw [List.length_drop, List.length_cons]
    omega
  · exact Nat.le_refl _

theorem parse_weeks_ne_empty {s : String} {ws : List Nat}
    (h : parse_weeks s = .ok ws) : s ≠ "" := by
  intro hs
  subst hs
  rw [show parse_weeks "" = .error .noMarker from rfl] at h
  exact Except.noConfusion h

theorem applyHeader_ne_nil {courses : List Course} (row : List String)
    (h : courses ≠ []) : applyHeader courses row ≠ [] := by
  unfold applyHeader
  cases Course.new (row.getD 0 "") (row.getD 1 "") (row.getD 2 "")
      (row.getD 3 "") (row.getD 6 "") (row.getD 7 "") <;> simp [h]

theorem updateLast_ne_nil (f : Course → Course) {l : List Course}
    (h : l ≠ []) : updateLast f l ≠ [] := by
  match l with
  | [] => exact absurd rfl h
  | [c] => simp [updateLast]
  | c :: c' :: rest => simp [updateLast]

theorem updateLast_updateLast (f g : Course → Course) (l : List Course) :
    updateLast f (updateLast g l) = updateLast (fun c => f (g c)) l := by
  match l with
  | [] => rfl
  | [c] => rfl
  | c :: c' :: rest =>
    obtain ⟨d, ds, hd⟩ : ∃ d ds, updateLast g (c' :: rest) = d :: ds := by
      cases h : updateLast g (c' :: rest) with
      | nil => exact absurd h (updateLast_ne_nil g (by simp))
      | cons d ds => exact ⟨d, ds, rfl⟩
    calc updateLast f (updateLast g (c :: c' :: rest))
        = updateLast f (c :: updateLast g (c' :: rest)) := rfl
      _ = updateLast f (c :: d :: ds) := by rw [hd]
      _ = c :: updateLast f (d :: ds) := rfl
      _ = c :: updateLast f (updateLast g (c' :: rest)) := by rw [hd]
      _ = c :: updateLast (fun x => f (g x)) (c' :: rest) := by
            rw [updateLast_updateLast f g (c' :: rest)]
      _ = updateLast (fun x => f (g x)) (c :: c' :: rest) := rfl

theorem examStep_set {field : String} {e : Exam} {courses : List Course}
    (hne : courses ≠ []) (hf : field ≠ "") (he : parse_exam field = .ok e) :
    examStep courses field =
      .ok (updateLast (fun c => { c with exam := some e }) courses) := by
  match courses with
  | [] => exact absurd rfl hne
  | c :: cs => simp only [examStep, if_neg hf, he]

theorem classStep_push {row : List String} {wd : Weekday} {p : Period}
    {ws : List Nat} {courses : List Course} (hne : courses ≠ [])
    (h9 : row.getD 9 "" ≠ "")
    (hwd : weekdayFromStr (row.getD 11 "") = some wd)
    (hp : parse_period (row.getD 12 "") = .ok p)
    (hwk : parse_weeks (row.getD 14 "") = .ok ws) :
    classStep courses row =
      .ok (updateLast (fun c => { c with classes := c.classes ++
        [⟨wd, p, row.getD 13 "", row.getD 10 "", ws, row.getD 9 ""⟩] })
        courses) := by
  match courses with
  | [] => exact absurd rfl hne
  | c :: cs => simp only [classStep, if_neg h9, hwd, hp, hwk]

/-! ## Claims -/

/-- Claim C1, counterexample.  A 16-token class row processed after a course
header has been appended, with class type `LEC`, well-formed weekday `Mon`,
period `0900to1100` and week list `Teaching Wk1-3,5`, does not append a
class: because column 14 is non-empty and a current course exists, the row
first runs `parse_exam` on `Teaching Wk1-3,5`, which fails, aborting the row
with `Other`. -/
theorem claim1_counterexample :
    processRow [⟨"CS101", "Intro", "3", "Core", "12345", "Registered", [], none⟩]
      ["", "", "", "", "", "", "", "", "", "LEC", "G1", "Mon", "0900to1100",
        "LT1", "Teaching Wk1-3,5", ""] = .error .Other := by
  decide

/-- Claim C1 (amended).  For a 16-token row processed after at least one
course header has been appended, whose class-type column (9) is non-empty
and whose weekday, period and week-list fields are well-formed, and whose
shared column 14 moreover parses as an exam block, the loop body succeeds,
setting the current course's exam and appending the constructed `Class`
(built from weekday, period, venue 13, group 10, weeks, class type 9) to its
class list. -/
theorem claim1_class_append (courses : List Course) (row : List String)
    (wd : Weekday) (p : Period) (ws : List Nat) (e : Exam)
    (hne : courses ≠ []) (hlen : row.length = numColumns)
    (h9 : row.getD 9 "" ≠ "")
    (hwd : weekdayFromStr (row.getD 11 "") = some wd)
    (hp : parse_period (row.getD 12 "") = .ok p)
    (hwk : parse_weeks (row.getD 14 "") = .ok ws)
    (hex : parse_exam (row.getD 14 "") = .ok e) :
    processRow courses row = .ok (updateLast
      (fun c => { c with exam := some e, classes := c.classes ++
        [⟨wd, p, row.getD 13 "", row.getD 10 "", ws, row.getD 9 ""⟩] })
      (applyHeader courses row)) := by
  have h14 : row.getD 14 "" ≠ "" := parse_weeks_ne_empty hwk
  have h1 : applyHeader courses row ≠ [] := applyHeader_ne_nil row hne
  unfold processRow
  dsimp only
  rw [examStep_set h1 h14 hex]
  dsimp only
  rw [classStep_push (updateLast_ne_nil _ h1) h9 hwd hp hwk,
    updateLast_updateLast]

/-- Claim C1, witness. -/
theorem claim1_witness :
    processRow [⟨"CS101", "Intro", "3", "Core", "12345", "Registered", [], none⟩]
      ["", "", "", "", "", "", "", "", "", "LEC", "G1", "Mon", "0900to1100",
        "LT1", "/15-Nov-2023 0900to1100/gmTeaching Wk1-3,5", ""] =
      .ok [⟨"CS101", "Intro", "3", "Core", "12345", "Registered",
        [⟨.monday, ⟨⟨9, 0⟩, ⟨11, 0⟩⟩, "LT1", "G1", [1, 2, 3, 5], "LEC"⟩],
        some ⟨15, .november, 2023, ⟨⟨9, 0⟩, ⟨11, 0⟩⟩⟩⟩] := by
  have h := claim1_class_append
    [⟨"CS101", "Intro", "3", "Core", "12345", "Registered", [], none⟩]
    ["", "", "", "", "", "", "", "", "", "LEC", "G1", "Mon", "0900to1100",
      "LT1", "/15-Nov-2023 0900to1100/gmTeaching Wk1-3,5", ""]
    .monday ⟨⟨9, 0⟩, ⟨11, 0⟩⟩ [1, 2, 3, 5]
    ⟨15, .november, 2023, ⟨⟨9, 0⟩, ⟨11, 0⟩⟩⟩
    (by decide) (by decide) (by decide) (by decide) (by decide) (by decide)
    (by decide)
  exact h.trans (by decide)

/-- Claim C2, counterexample.  A single 16-token row whose exam-info column
14 holds a perfectly well-formed exam block, processed before any course
header, does not fail with `UnknownCourse`: the parse succeeds with an empty
course list, i.e. the exam is silently dropped. -/
theorem claim2_counterexample :
    parse_from_table
      "\t\t\t\t\t\t\t\t\t\t\t\t\t\t/15-Nov-2023 0900to1100/gm\t" = .ok [] ∧
    parse_exam "/15-Nov-2023 0900to1100/gm" =
      .ok ⟨15, .november, 2023, ⟨⟨9, 0⟩, ⟨11, 0⟩⟩⟩ :=
  ⟨by decide, by decide⟩

/-- Claim C2 (amended).  For every 16-token row whose exam-info column (14)
is non-empty and whose class-type column (9) is empty, processed before any
course header has been appended (no current course, and the row itself is
not a valid header), the loop body succeeds and leaves the course list
empty: the exam field is ignored entirely, not reported as
`UnknownCourse`. -/
theorem claim2_exam_dropped (row : List String)
    (hlen : row.length = numColumns)
    (hh : Course.new (row.getD 0 "") (row.getD 1 "") (row.getD 2 "")
      (row.getD 3 "") (row.getD 6 "") (row.getD 7 "") = .error ⟨⟩)
    (h14 : row.getD 14 "" ≠ "") (h9 : row.getD 9 "" = "") :
    processRow [] row = .ok [] := by
  unfold processRow applyHeader
  rw [hh]
  dsimp only
  rw [show examStep [] (row.getD 14 "") = .ok [] by
    simp only [examStep, if_neg h14]]
  dsimp only
  simp only [classStep, if_pos h9]

/-- Claim C2, witness. -/
theorem claim2_witness :
    processRow [] ["", "", "", "", "", "", "", "", "", "", "", "", "", "",
      "SomeExamInfo", ""] = .ok [] := by
  have h := claim2_exam_dropped ["", "", "", "", "", "", "", "", "",
    "", "", "", "", "", "SomeExamInfo", ""] (by decide) (by decide)
    (by decide) (by decide)
  exact h

/-- Claim C3 (code bug).  The exam regex pattern string ends in the literal
characters `/gm` (JavaScript-style flags pasted into a Rust pattern), so the
field `/15-Nov-2023 0900to1100/` from the spec's scenario does NOT parse;
the same field with `gm` appended parses to exactly the Exam the claim
describes. -/
theorem claim3_exam_scenario :
    parse_exam "/15-Nov-2023 0900to1100/" = .error ⟨⟩ ∧
    parse_exam "/15-Nov-2023 0900to1100/gm" =
      .ok ⟨15, .november, 2023, ⟨⟨9, 0⟩, ⟨11, 0⟩⟩⟩ :=
  ⟨by decide, by decide⟩

/-- Claim C4, counterexample.  `Course::new` does not trim: an input
consisting only of whitespace is non-empty, so construction succeeds even
though the input trims to the empty string (the claim predicts failure). -/
theorem claim4_counterexample :
    Course.new " " "T" "A" "CT" "I" "S" =
      .ok ⟨" ", "T", "A", "CT", "I", "S", [], none⟩ ∧ trimStr " " = "" :=
  ⟨by decide, by decide⟩

/-- Claim C4 (amended).  `Course::new` succeeds, returning the course shell
with empty class list and no exam, iff every one of the six inputs is
non-empty as given (no trimming is performed by `new` itself; the table
scanner trims tokens before calling it); otherwise it fails with the generic
unit validation error carrying no further detail. -/
theorem claim4_new_iff :
    (∀ code title au course_type index status : String,
      Course.new code title au course_type index status =
        .ok ⟨code, title, au, course_type, index, status, [], none⟩ ↔
      (code ≠ "" ∧ title ≠ "" ∧ au ≠ "" ∧ course_type ≠ "" ∧ index ≠ "" ∧
        status ≠ "")) ∧
    (∀ code title au course_type index status : String,
      (code = "" ∨ title = "" ∨ au = "" ∨ course_type = "" ∨ index = "" ∨
        status = "") →
      Course.new code title au course_type index status = .error ⟨⟩) := by
  constructor
  · intro c t a ct i s
    unfold Course.new
    split
    · rename_i hcond
      constructor
      · intro h
        exact absurd h (by simp)
      · rintro ⟨h1, h2, h3, h4, h5, h6⟩
        exact absurd hcond (by push_neg; exact ⟨h1, h2, h3, h4, h5, h6⟩)
    · rename_i hcond
      push_neg at hcond
      constructor
      · intro _
        exact hcond
      · intro _
        rfl
  · intro c t a ct i s h
    unfold Course.new
    rw [if_pos h]

/-- Claim C4, witness. -/
theorem claim4_witness :
    Course.new "" "T" "A" "CT" "I" "S" = .error ⟨⟩ ∧
    Course.new "C" "T" "A" "CT" "I" "S" =
      .ok ⟨"C", "T", "A", "CT", "I", "S", [], none⟩ :=
  ⟨claim4_new_iff.2 "" "T" "A" "CT" "I" "S" (Or.inl rfl),
    (claim4_new_iff.1 "C" "T" "A" "CT" "I" "S").mpr (by decide)⟩

/-- Claim C6, counterexample.  A 16-token class row before any course
header whose weekday field is unparseable fails with `Other` (the weekday
field-format error), not with `UnknownCourse` as the claim's "regardless"
asserts. -/
theorem claim6_counterexample :
    processRow [] ["", "", "", "", "", "", "", "", "", "LEC", "G1", "garbage",
      "0900to1100", "LT1", "Teaching Wk1", ""] = .error .Other := by
  decide

/-- Claim C6 (amended).  For every 16-token row with a non-empty class-type
column (9) processed before any course header has been appended (no current
course, and the row itself is not a valid header), if the weekday, period
and week-list fields each parse successfully, the loop body fails with the
`UnknownCourse` ownership error embedding the constructed class; a
malformed field instead fails earlier with its field-format error. -/
theorem claim6_unknown_course (row : List String) (wd : Weekday) (p : Period)
    (ws : List Nat) (hlen : row.length = numColumns)
    (hh : Course.new (row.getD 0 "") (row.getD 1 "") (row.getD 2 "")
      (row.getD 3 "") (row.getD 6 "") (row.getD 7 "") = .error ⟨⟩)
    (h9 : row.getD 9 "" ≠ "")
    (hwd : weekdayFromStr (row.getD 11 "") = some wd)
    (hp : parse_period (row.getD 12 "") = .ok p)
    (hwk : parse_weeks (row.getD 14 "") = .ok ws) :
    processRow [] row = .error (.UnknownCourse
      ⟨wd, p, row.getD 13 "", row.getD 10 "", ws, row.getD 9 ""⟩) := by
  have h14 : row.getD 14 "" ≠ "" := parse_weeks_ne_empty hwk
  unfold processRow applyHeader
  rw [hh]
  dsimp only
  rw [show examStep [] (row.getD 14 "") = .ok [] by
    simp only [examStep, if_neg h14]]
  dsimp only
  simp only [classStep, if_neg h9, hwd, hp, hwk]

/-- Claim C6, witness. -/
theorem claim6_witness :
    processRow [] ["", "", "", "", "", "", "", "", "", "LEC", "G1", "Mon",
      "0900to1100", "LT1", "Teaching Wk1-3,5", ""] =
      .error (.UnknownCourse ⟨.monday, ⟨⟨9, 0⟩, ⟨11, 0⟩⟩, "LT1", "G1",
        [1, 2, 3, 5], "LEC"⟩) := by
  have h := claim6_unknown_course ["", "", "", "", "", "", "", "",
    "", "LEC", "G1", "Mon", "0900to1100", "LT1", "Teaching Wk1-3,5", ""]
    .monday ⟨⟨9, 0⟩, ⟨11, 0⟩⟩ [1, 2, 3, 5]
    (by decide) (by decide) (by decide) (by decide) (by decide) (by decide)
  exact h.trans (by decide)

/-! Lemmas for the week-list claims. -/

theorem weeksOfTokens_join : ∀ {toks : List (List Char)} {ls : List (List Nat)},
    List.Forall₂ (fun t l => tokenWeeks t = .ok l) toks ls →
    weeksOfTokens toks = .ok ls.flatten := by
  intro toks ls h
  induction h with
  | nil => rfl
  | cons h _ ih =>
    simp only [weeksOfTokens, h, ih, List.flatten_cons]

theorem splitChar_of_not_mem {sep : Char} {xs : List Char} (h : sep ∉ xs) :
    splitChar sep xs = [xs] := by
  induction xs with
  | nil => rfl
  | cons c rest ih =>
    have hc : ¬c = sep := fun hh => h (hh ▸ List.mem_cons_self c rest)
    have hr : sep ∉ rest := fun hh => h (List.mem_cons_of_mem c hh)
    simp only [splitChar, if_neg hc, ih hr]

theorem splitChar_append {sep : Char} {xs : List Char} (h : sep ∉ xs)
    (ys : List Char) :
    splitChar sep (xs ++ sep :: ys) = xs :: splitChar sep ys := by
  induction xs with
  | nil => simp [splitChar]
  | cons c rest ih =>
    have hc : ¬c = sep := fun hh => h (hh ▸ List.mem_cons_self c rest)
    have hr : sep ∉ rest := fun hh => h (List.mem_cons_of_mem c hh)
    simp only [List.cons_append, splitChar, if_neg hc, List.append_eq, ih hr]

theorem not_mem_of_all_digit {l : List Char} (h : l.all Char.isDigit) :
    '-' ∉ l := by
  intro hm
  have := List.all_eq_true.mp h '-' hm
  exact absurd this (by decide)

theorem tokenWeeks_range_eq {sa sb : List Char} (ha : sa ≠ []) (hb : sb ≠ [])
    (hda : sa.all Char.isDigit) (hdb : sb.all Char.isDigit)
    (hsa : digitsVal sa ≤ u32Max) (hsb : digitsVal sb + 1 ≤ u32Max) :
    tokenWeeks (sa ++ '-' :: sb) =
      .ok (List.range' (digitsVal sa) (digitsVal sb + 1 - digitsVal sa)) := by
  have hsplit : splitChar '-' (sa ++ '-' :: sb) = [sa, sb] := by
    rw [splitChar_append (not_mem_of_all_digit hda) sb,
      splitChar_of_not_mem (not_mem_of_all_digit hdb)]
  have hea : sa.isEmpty = false := by
    cases sa with
    | nil => exact absurd rfl ha
    | cons c cs => rfl
  have heb : sb.isEmpty = false := by
    cases sb with
    | nil => exact absurd rfl hb
    | cons c cs => rfl
  have hrange : rangeMatch (sa ++ '-' :: sb) = some (sa, sb) := by
    simp only [rangeMatch, hsplit]
    rw [if_pos]
    exact ⟨by simp [hea], by simp [heb], hda, hdb⟩
  have hua : digitsU32 sa = some (digitsVal sa) := by
    simp only [digitsU32, hea, hda, if_pos hsa]
    rfl
  have hub : digitsU32 sb = some (digitsVal sb) := by
    have : digitsVal sb ≤ u32Max := by omega
    simp only [digitsU32, heb, hdb, if_pos this]
    rfl
  simp only [tokenWeeks, hrange, hua, hub, if_pos hsb]

/-- Claim C7, counterexample.  The token `4294967295-4294967295` is a
well-formed `start-end` range of valid `u32` values with start ≤ end, yet
`parse_weeks` does not append 4294967295: the source computes
`(start..end + 1)` in `u32`, and `4294967295 + 1` overflows (a panic under
the default checked arithmetic; under release-mode wrapping the range
`4294967295..0` is empty), so the claimed week is never produced. -/
theorem claim7_counterexample :
    parse_weeks "Teaching Wk4294967295-4294967295" = .error .panicked := by
  decide

/-- Claim C7 (amended).  For a week-list input containing the `Teaching Wk`
marker, the output is the concatenation, in input token order with no
deduplication or sorting, of the per-token contributions; and a token
`start-end` whose numerals are valid `u32` values with `end + 1` also
representable contributes exactly the integers from start to end inclusive,
in ascending contiguous order (`List.range'` with step 1).  For
`end = u32::MAX` the computation `end + 1` overflows and the parse panics
instead. -/
theorem claim7_week_ranges :
    (∀ (s : String) (rest : List Char) (ls : List (List Nat)),
      afterMarker s.data = some rest →
      List.Forall₂ (fun t l => tokenWeeks t = .ok l) (splitChar ',' rest) ls →
      parse_weeks s = .ok ls.flatten) ∧
    (∀ sa sb : List Char, sa ≠ [] → sb ≠ [] →
      sa.all Char.isDigit → sb.all Char.isDigit →
      digitsVal sa ≤ digitsVal sb → digitsVal sb + 1 ≤ u32Max →
      tokenWeeks (sa ++ '-' :: sb) =
        .ok (List.range' (digitsVal sa) (digitsVal sb + 1 - digitsVal sa))) ∧
    (∀ a b k : Nat, a ≤ b →
      (k ∈ List.range' a (b + 1 - a) ↔ a ≤ k ∧ k ≤ b)) := by
  refine ⟨?_, ?_, ?_⟩
  · intro s rest ls hm hf
    unfold parse_weeks
    rw [hm]
    exact weeksOfTokens_join hf
  · intro sa sb ha hb hda hdb hab hsb
    exact tokenWeeks_range_eq ha hb hda hdb (by omega) hsb
  · intro a b k hab
    rw [List.mem_range'_1]
    omega

/-- Claim C7, witness: the spec's scenario `Teaching Wk1-3,5` parses to
`[1, 2, 3, 5]`, with the range token contributing `[1, 2, 3]` at its
position. -/
theorem claim7_witness : parse_weeks "Teaching Wk1-3,5" = .ok [1, 2, 3, 5] := by
  have h := claim7_week_ranges.1 "Teaching Wk1-3,5" "1-3,5".data
    [[1, 2, 3], [5]] (by decide)
    (by
      rw [show splitChar ',' "1-3,5".data = ["1-3".data, "5".data] by decide]
      exact List.Forall₂.cons
        (claim7_week_ranges.2.1 "1".data "3".data (by decide) (by decide)
          (by decide) (by decide) (by decide) (by decide))
        (List.Forall₂.cons (by decide) List.Forall₂.nil))
  exact h.trans (by decide)

/-- Claim C10 (confirmed).  A range token `start-end` whose numerals are
valid `u32` values (per the code's `parse::<u32>`; the spec separately
documents numerals that do not parse as `u32` as the panic-class
malformed-number defect) with start > end contributes no week numbers and
no error — the Rust range `start..end+1` is simply empty — and `parse_weeks`
succeeds whenever every token's contribution succeeds, returning the other
tokens' contributions in order. -/
theorem claim10_inverted_range :
    (∀ sa sb : List Char, sa ≠ [] → sb ≠ [] →
      sa.all Char.isDigit → sb.all Char.isDigit →
      digitsVal sb < digitsVal sa → digitsVal sa ≤ u32Max →
      tokenWeeks (sa ++ '-' :: sb) = .ok []) ∧
    (∀ (s : String) (rest : List Char) (ls : List (List Nat)),
      afterMarker s.data = some rest →
      List.Forall₂ (fun t l => tokenWeeks t = .ok l) (splitChar ',' rest) ls →
      parse_weeks s = .ok ls.flatten) := by
  constructor
  · intro sa sb ha hb hda hdb hba hsa
    have h := tokenWeeks_range_eq ha hb hda hdb hsa (by omega)
    rw [h]
    have : digitsVal sb + 1 - digitsVal sa = 0 := by omega
    rw [this]
    rfl
  · intro s rest ls hm hf
    unfold parse_weeks
    rw [hm]
    exact weeksOfTokens_join hf

/-- Claim C10, witness: in `Teaching Wk3-1,5` the inverted range `3-1`
contributes nothing and the parse succeeds with `[5]`. -/
theorem claim10_witness : parse_weeks "Teaching Wk3-1,5" = .ok [5] := by
  have h := claim10_inverted_range.2 "Teaching Wk3-1,5" "3-1,5".data
    [[], [5]] (by decide)
    (by
      rw [show splitChar ',' "3-1,5".data = ["3-1".data, "5".data] by decide]
      exact List.Forall₂.cons
        (claim10_inverted_range.1 "3".data "1".data (by decide) (by decide)
          (by decide) (by decide) (by decide) (by decide))
        (List.Forall₂.cons (by decide) List.Forall₂.nil))
  exact h.trans (by decide)

/-- Claim C8 (confirmed).  `parse_period` succeeds exactly on the
ten-character strings made of four digits, the literal `to`, and four more
digits (the anchored regex `^(\d\d)(\d\d)to(\d\d)(\d\d)$`), and on success
returns the digit groups verbatim as (hour, minute) pairs with no range
validation of either. -/
theorem claim8_period_shape :
    (∀ s : String, (∃ p, parse_period s = .ok p) ↔
      ∃ a b c d e f g h : Char,
        s.data = [a, b, c, d, 't', 'o', e, f, g, h] ∧
        a.isDigit ∧ b.isDigit ∧ c.isDigit ∧ d.isDigit ∧
        e.isDigit ∧ f.isDigit ∧ g.isDigit ∧ h.isDigit) ∧
    (∀ a b c d e f g h : Char, a.isDigit → b.isDigit → c.isDigit →
      d.isDigit → e.isDigit → f.isDigit → g.isDigit → h.isDigit →
      parse_period ⟨[a, b, c, d, 't', 'o', e, f, g, h]⟩ =
        .ok ⟨⟨digit2 a b, digit2 c d⟩, ⟨digit2 e f, digit2 g h⟩⟩) := by
  constructor
  · intro s
    constructor
    · rintro ⟨p, hp⟩
      unfold parse_period at hp
      rcases hs : s.data with _ | ⟨c1, _ | ⟨c2, _ | ⟨c3, _ | ⟨c4, _ |
        ⟨c5, _ | ⟨c6, _ | ⟨c7, _ | ⟨c8, _ | ⟨c9, _ | ⟨c10, _ |
        ⟨c11, rest⟩⟩⟩⟩⟩⟩⟩⟩⟩⟩⟩ <;> rw [hs] at hp <;>
        first
        | (dsimp only at hp
           split at hp
           · rename_i hcond
             obtain ⟨h1, h2, h3, h4, ht, ho, h5, h6, h7, h8⟩ := hcond
             subst ht ho
             exact ⟨c1, c2, c3, c4, c7, c8, c9, c10, rfl, h1, h2, h3, h4,
               h5, h6, h7, h8⟩
           · exact absurd hp (by simp))
        | exact absurd hp (by simp)
    · rintro ⟨a, b, c, d, e, f, g, h, hs, h1, h2, h3, h4, h5, h6, h7, h8⟩
      refine ⟨⟨⟨digit2 a b, digit2 c d⟩, ⟨digit2 e f, digit2 g h⟩⟩, ?_⟩
      unfold parse_period
      rw [hs]
      exact if_pos ⟨h1, h2, h3, h4, rfl, rfl, h5, h6, h7, h8⟩
  · intro a b c d e f g h h1 h2 h3 h4 h5 h6 h7 h8
    unfold parse_period
    exact if_pos ⟨h1, h2, h3, h4, rfl, rfl, h5, h6, h7, h8⟩

/-- Claim C8, witness: `0900to1100` round-trips to 09:00–11:00, and
`9927to2468` is accepted verbatim with hour 99 — no range validation. -/
theorem claim8_witness :
    parse_period "0900to1100" = .ok ⟨⟨9, 0⟩, ⟨11, 0⟩⟩ ∧
    parse_period "9927to2468" = .ok ⟨⟨99, 27⟩, ⟨24, 68⟩⟩ := by
  constructor
  · have h := claim8_period_shape.2 '0' '9' '0' '0' '1' '1' '0' '0'
      (by decide) (by decide) (by decide) (by decide) (by decide) (by decide)
      (by decide) (by decide)
    exact h.trans (by decide)
  · have h := claim8_period_shape.2 '9' '9' '2' '7' '2' '4' '6' '8'
      (by decide) (by decide) (by decide) (by decide) (by decide) (by decide)
      (by decide) (by decide)
    exact h.trans (by decide)

/-! Lemmas for the ragged-table claim. -/

theorem chunks16_append16 {ys : List String} (h : ys.length = 16)
    (zs : List String) : chunks16 (ys ++ zs) = ys :: chunks16 zs := by
  cases ys with
  | nil => simp at h
  | cons y ys' =>
    have hc : (y :: ys') ++ zs = y :: (ys' ++ zs) := rfl
    rw [hc, chunks16_cons]
    have ht : (y :: (ys' ++ zs)).take 16 = y :: ys' := by
      rw [← hc, List.take_left' h]
    have hd : (y :: (ys' ++ zs)).drop 16 = zs := by
      rw [← hc, List.drop_left' h]
    rw [ht, hd]

/-- If the token count is not a multiple of 16 and all complete 16-token
rows process without error, the row loop reaches the final short window and
fails there with `MissingValues` built from its row index and its token
count. -/
theorem parseRows_ragged (xs : List String) (i : Nat) (cs acc : List Course)
    (hmod : xs.length % 16 ≠ 0)
    (hok : parseRows i cs (chunks16 (xs.take (16 * (xs.length / 16)))) =
      .ok acc) :
    parseRows i cs (chunks16 xs) = .error (.MissingValues
      (missingMsg (i + xs.length / 16) (xs.length % 16))) := by
  by_cases hlt : xs.length < 16
  · have hdiv : xs.length / 16 = 0 := Nat.div_eq_of_lt hlt
    have hmodeq : xs.length % 16 = xs.length := Nat.mod_eq_of_lt hlt
    have hne : xs ≠ [] := by
      intro h
      subst h
      simp at hmod
    obtain ⟨x, xs', hx⟩ := List.exists_cons_of_ne_nil hne
    subst hx
    rw [chunks16_cons, List.take_of_length_le (Nat.le_of_lt hlt),
      List.drop_eq_nil_of_le (Nat.le_of_lt hlt)]
    have hrow : ((x :: xs').map trimStr).length = (x :: xs').length :=
      List.length_map _ _
    simp only [parseRows]
    rw [if_pos (show ¬((x :: xs').map trimStr).length = numColumns by
      rw [hrow]
      show ¬(x :: xs').length = 16
      omega)]
    rw [hrow, hdiv, hmodeq, Nat.add_zero]
  · push_neg at hlt
    have hne : xs ≠ [] := by
      intro h
      subst h
      simp at hlt
    obtain ⟨x, xs', hx⟩ := List.exists_cons_of_ne_nil hne
    have hcc : chunks16 xs = xs.take 16 :: chunks16 (xs.drop 16) := by
      rw [hx]
      exact chunks16_cons x xs'
    have hq : xs.length / 16 = (xs.length - 16) / 16 + 1 := by
      omega
    have hdlen : (xs.drop 16).length = xs.length - 16 :=
      List.length_drop _ _
    have htake : xs.take (16 * (xs.length / 16)) =
        xs.take 16 ++ (xs.drop 16).take
          (16 * (((xs.drop 16).length) / 16)) := by
      rw [hdlen, hq,
        show 16 * ((xs.length - 16) / 16 + 1) =
          16 + 16 * ((xs.length - 16) / 16) by ring,
        List.take_add]
    have hlen16 : (xs.take 16).length = 16 := by
      rw [List.length_take]
      omega
    rw [htake, chunks16_append16 hlen16] at hok
    rw [hcc]
    simp only [parseRows] at hok ⊢
    have hcond : ¬((xs.take 16).map trimStr).length ≠ numColumns := by
      intro hc
      apply hc
      rw [List.length_map, hlen16]
      rfl
    rw [if_neg hcond] at hok ⊢
    cases hpr : processRow cs ((xs.take 16).map trimStr) with
    | error e =>
      rw [hpr] at hok
      exact absurd hok (by simp)
    | ok cs' =>
      rw [hpr] at hok
      dsimp only at hok ⊢
      have hmod' : (xs.drop 16).length % 16 ≠ 0 := by
        rw [hdlen]
        omega
      have hrec := parseRows_ragged (xs.drop 16) (i + 1) cs' acc
        hmod' hok
      have e1 : (i + 1) + (xs.drop 16).length / 16 =
          i + xs.length / 16 := by
        rw [hdlen]
        omega
      have e2 : (xs.drop 16).length % 16 = xs.length % 16 := by
        rw [hdlen]
        omega
      rw [e1, e2] at hrec
      exact hrec
termination_by xs.length
decreasing_by
  rw [List.length_drop]
  omega

/-- Claim C5, counterexample.  A 17-token table (not a multiple of 16) whose
first complete row is a valid course header with the non-empty exam field
`bad` fails with `Other` (the exam parse failure on row 0), not with the
structural `MissingValues` error for the trailing 1-token row that the claim
predicts for every such table. -/
theorem claim5_counterexample :
    parse_from_table "C\tT\t1\tX\t\t\tI\tS\t\t\t\t\t\t\tbad\t\tx" =
      .error .Other := by
  decide

/-- Claim C5 (amended).  For every input text whose tab-token count (after
newline removal) is not a multiple of 16, provided every complete 16-token
row before the final incomplete one processes without error,
`parse_from_table` fails with `MissingValues` whose message reports the
index of the final incomplete row (= number of complete rows), its token
count (the remainder mod 16), and the expected count 16; the error arises
on that final window, not earlier. -/
theorem claim5_ragged_table (table : String) (acc : List Course)
    (hmod : (tokenize table).length % 16 ≠ 0)
    (hok : parseRows 0 [] (chunks16 ((tokenize table).take
      (16 * ((tokenize table).length / 16)))) = .ok acc) :
    parse_from_table table = .error (.MissingValues
      (missingMsg ((tokenize table).length / 16)
        ((tokenize table).length % 16))) := by
  unfold parse_from_table
  have h := parseRows_ragged (tokenize table) 0 [] acc hmod hok
  rw [Nat.zero_add] at h
  exact h

/-- Claim C5, witness: a 2-token table has no complete rows and fails with
the `MissingValues` message for row 0 with 2 found tokens. -/
theorem claim5_witness :
    parse_from_table "a\tb" = .error (.MissingValues (missingMsg 0 2)) := by
  have h := claim5_ragged_table "a\tb" [] (by decide) (by decide)
  exact h.trans (by decide)

/-- Claim C9 (confirmed).  Splitting the empty input on tabs yields one
empty token, so the empty table forms a single 1-token row and
`parse_from_table` fails with the structural `MissingValues` error for row
0 instead of returning an empty course sequence. -/
theorem claim9_empty_input :
    parse_from_table "" = .error (.MissingValues (missingMsg 0 1)) ∧
    tokenize "" = [""] :=
  ⟨by decide, by decide⟩

end Timetable
